import Mathlib

/-!
Verification of the batch subtitle-burn orchestrator (`batchburn_main.py`).

The development shallowly embeds the non-GUI core of the program:

* the per-folder persisted job state (`burn_state.json`: `finished`/`pending`
  lists) and the two operations on it, the scanner's load/reconcile step
  (`scan_folders`, lines 156-171) and `mark_done` (lines 226-240);
* encoder selection (`pick_best_encoder`, lines 85-115);
* the bit-depth probe (`is_10bit`, lines 383-393);
* the per-file body of the batch loop in `run` (lines 433-527): bit-depth
  routing, subtitle extraction with its exception handler, the burn
  invocation, temp-sidecar cleanup, state marking, and the progress counters.

External subprocess invocations are modelled by their observable outcome: an
`Option` value distinguishes "the Python call raised" (`none`) from "the call
returned" (`some result`); a returned burn carries its exit code.  UI-widget
updates, logging text, and audio-track mapping are not referenced by any
property proved here and are omitted from the embedding.
-/

/-- Persisted per-folder job state, the JSON record
`{"finished": [...], "pending": [...]}` stored in `burn_state.json`. -/
structure JobState where
  finished : List String
  pending : List String
deriving DecidableEq, Repr

/-- Embedding of `mark_done(folder, f)` (lines 226-240).  The argument
`stored` is the current content of the folder's state file (`none` when the
file does not exist, in which case the source substitutes the fresh state
`{"finished": [], "pending": []}`).  The source appends `f` to `finished`
when absent and calls `list.remove(f)` on `pending` when present, which
removes the first occurrence only (`List.erase`); the result is what is
written back to the state file. -/
def mark_done (stored : Option JobState) (f : String) : JobState :=
  let st := stored.getD ⟨[], []⟩
  ⟨if st.finished.contains f then st.finished else st.finished ++ [f],
   st.pending.erase f⟩

/-- Embedding of the state-load portion of `scan_folders` for one qualifying
directory (lines 156-171).  `direct_videos` is the list of detected video
filenames, `stored` the content of `burn_state.json` (`none` when absent).
Returns `(persisted, memory)`: `persisted` is what the source writes back to
the state file (`json.dump(state, f)`), and `memory` is the in-memory work
item (`done`/`pending` as stored under the folder's `"done"`/`"files"` keys).
Note that in the file-exists branch the source recomputes the local variable
`pending` but never assigns it back into the `state` dict, so `persisted` is
the loaded state unchanged. -/
def scan_load (direct_videos : List String) (stored : Option JobState) :
    JobState × JobState :=
  match stored with
  | some st =>
      let done := st.finished
      let pending :=
        if st.pending.isEmpty then direct_videos.filter (fun v => !done.contains v)
        else st.pending
      (st, ⟨done, pending⟩)
  | none => (⟨[], direct_videos⟩, ⟨[], direct_videos⟩)

/-- Job states observable through the system's own operations: fresh
initialization by the scanner on a folder with no state file, the in-memory
state produced by load/reconciliation, and any sequence of `mark_done`
calls (including a call on a folder whose state file is absent).  Directory
listings contain distinct filenames, hence the `Nodup` hypotheses on the
detected-videos lists. -/
inductive ReachableState : JobState → Prop
  | init (videos : List String) (hv : videos.Nodup) :
      ReachableState ⟨[], videos⟩
  | load (videos : List String) (s : JobState) (hv : videos.Nodup)
      (hs : ReachableState s) :
      ReachableState (scan_load videos (some s)).2
  | mark (s : JobState) (f : String) (hs : ReachableState s) :
      ReachableState (mark_done (some s) f)
  | mark_absent (f : String) : ReachableState (mark_done none f)

/-- Embedding of `pick_best_encoder(encoders)` (lines 85-115): per codec
family an if-chain testing membership in the available list in the order
NVENC, QSV, AMF, with a software fallback, returning
`[bestav1, best_hevc, best264]`. -/
def pick_best_encoder (encoders : List String) : List String :=
  let best_hevc :=
    if encoders.contains "hevc_nvenc" then "hevc_nvenc"
    else if encoders.contains "hevc_qsv" then "hevc_qsv"
    else if encoders.contains "hevc_amf" then "hevc_amf"
    else "libx265"
  let best264 :=
    if encoders.contains "h264_nvenc" then "h264_nvenc"
    else if encoders.contains "h264_qsv" then "h264_qsv"
    else if encoders.contains "h264_amf" then "h264_amf"
    else "libx264"
  let bestav1 :=
    if encoders.contains "av1_nvenc" then "av1_nvenc"
    else if encoders.contains "av1_qsv" then "av1_qsv"
    else if encoders.contains "av1_amf" then "av1_amf"
    else "libxav1"
  [bestav1, best_hevc, best264]

/-- First candidate of `cands` (in order) present in `avail`, else the
fallback.  Building block of the spec-style selection table. -/
def pref_pick (avail : List String) : List String → String → String
  | [], fallback => fallback
  | c :: rest, fallback =>
      if avail.contains c then c else pref_pick avail rest fallback

/-- Definition following the spec's words for `selectBest` (section 4.2): a
static preference table per codec family, hardware order
NVENC > QSV > AMF, software encoder as universal fallback.  Stated only to
be compared against `pick_best_encoder`, the definition taken from the
source. -/
def select_best_spec (avail : List String) : List String :=
  [pref_pick avail ["av1_nvenc", "av1_qsv", "av1_amf"] "libxav1",
   pref_pick avail ["hevc_nvenc", "hevc_qsv", "hevc_amf"] "libx265",
   pref_pick avail ["h264_nvenc", "h264_qsv", "h264_amf"] "libx264"]

/-- Python `str.strip()`: drop leading and trailing whitespace. -/
def py_strip (s : List Char) : List Char :=
  ((s.dropWhile Char.isWhitespace).reverse.dropWhile Char.isWhitespace).reverse

/-- Embedding of `is_10bit(input_path)` (lines 383-393) as a function of the
probe invocation's stdout: `pix_fmt = result.stdout.strip()` followed by
`return "10" in pix_fmt`. -/
def is_10bit (stdout : List Char) : Bool :=
  decide (['1', '0'] <:+: py_strip stdout)

/-- Bit-depth decision of the run loop (lines 451-454): `none` models the
probe call raising, in which case the `except` handler defaults to 8-bit. -/
def bit_probe (probe : Option (List Char)) : Bool :=
  match probe with
  | none => false
  | some out => is_10bit out

/-- Guard `sub_idx is not None and sub_idx != ""` used before extracting a
subtitle (line 466). -/
def hasSubSel (o : Option String) : Bool :=
  match o with
  | none => false
  | some s => s != ""

/-- Observable outcomes of the external invocations made while processing
one file in the `run` loop.  `subSel` is the parsed subtitle stream index
(`none` when no track is selected or the descriptor is malformed);
`probeOut` is the stdout of the pixel-format probe (`none`: the probe call
raised); `extractRaises` says whether `subprocess.run` for extraction
raised; `extractCreates` whether the extraction attempt left a sidecar file
on disk; `burnResult` is `none` when the burn invocation raised and
`some code` when it returned with that exit code; `subname` is the random
temp sidecar name. -/
structure FileEnv where
  subSel : Option String
  probeOut : Option (List Char)
  extractRaises : Bool
  extractCreates : Bool
  burnResult : Option Nat
  subname : String
deriving DecidableEq, Repr

/-- Observable result of processing one file: chosen encoder and filter
chain, whether `-vf` was passed to the burn command, whether `mark_done`
was called, whether the temp sidecar still exists afterwards, whether the
`Error burning` log line fired, and whether the burn completed with exit
code 0 (the spec's success criterion, hence an output file). -/
structure FileResult where
  is10 : Bool
  chosen_encoder : String
  vf : String
  burnHasVf : Bool
  marked : Bool
  sidecarAfter : Bool
  burnErrorLogged : Bool
  outputProduced : Bool
deriving DecidableEq, Repr

/-- Embedding of the per-file body of `run` (lines 433-518): bit-depth
routing to `best265`/`best264` and the two filter chains (lines 450-463),
subtitle extraction with its exception handler (the handler deletes the
sidecar if present, clears `sub_idx` and sets `vf_option = ""`, lines
466-483), the burn invocation, post-burn sidecar cleanup and `mark_done`
(lines 504-515), and the `except` logging branch (lines 517-518).  The
burn is run without `check=True` and without a timeout, so only a raising
invocation (`burnResult = none`) reaches the `except` branch; a returned
invocation proceeds to cleanup and `mark_done` whatever its exit code.
Logging text and audio-stream mapping are omitted. -/
def process_file (best265 best264 : String) (env : FileEnv) : FileResult :=
  let is10 := bit_probe env.probeOut
  let chosen := if is10 then best265 else best264
  let vf0 := if is10 then "subtitles=" ++ env.subname
             else "format=yuv420p,subtitles=" ++ env.subname
  let ext : Bool × String × Bool :=
    if hasSubSel env.subSel then
      if env.extractRaises then (false, "", false)
      else (true, vf0, env.extractCreates)
    else (false, "", false)
  let subActive := ext.1
  let vf := ext.2.1
  let sidecar := ext.2.2
  match env.burnResult with
  | none => ⟨is10, chosen, vf, vf != "", false, sidecar, true, false⟩
  | some code =>
      ⟨is10, chosen, vf, vf != "", true,
        if subActive && sidecar then false else sidecar, false, code == 0⟩

/-- Global progress formula of the run loop (line 524):
`(completed_tasks / total_tasks) * 100 if total_tasks else 100`. -/
def global_percent (completed total : ℕ) : ℚ :=
  if total = 0 then 100 else ((completed : ℚ) / (total : ℚ)) * 100

/-- Per-folder progress formula (line 523):
`(processed_in_folder / num_files) * 100 if num_files else 100`. -/
def folder_percent (processed num_files : ℕ) : ℚ :=
  if num_files = 0 then 100 else ((processed : ℚ) / (num_files : ℚ)) * 100

/-- The sequential file loop of `run` restricted to its progress
accounting (lines 433, 520-527): each iteration processes one file and
then increments `completed_tasks` and emits the global percentage
unconditionally — the increment sits outside the try/except, so success
and failure advance it alike.  Returns the emitted global percentages in
order together with the final counter value. -/
def run_files (best265 best264 : String) (envs : List FileEnv)
    (completed total : ℕ) : List ℚ × ℕ :=
  match envs with
  | [] => ([], completed)
  | e :: rest =>
      let _ := process_file best265 best264 e
      let c := completed + 1
      let r := run_files best265 best264 rest c total
      (global_percent c total :: r.1, r.2)

/-- Sample environment: burn invocation returns with exit code 1. -/
def envBurnFail : FileEnv :=
  ⟨some "3", some "yuv420p".toList, false, true, some 1, "subs0.1.ass"⟩

/-- Sample environment: 12-bit pixel format, burn succeeds. -/
def env12bit : FileEnv :=
  ⟨some "3", some "yuv420p12le".toList, false, true, some 0, "subs0.42.ass"⟩

/-- Sample environment: 10-bit pixel format, burn succeeds. -/
def env10bit : FileEnv :=
  ⟨some "3", some "yuv420p10le".toList, false, true, some 0, "subs0.2.ass"⟩

/-- Sample environment: 8-bit pixel format, no subtitle track selected. -/
def envNoSub8bit : FileEnv :=
  ⟨none, some "yuv420p".toList, false, false, some 0, "subs0.3.ass"⟩

/-- Sample environment: subtitle extraction raises, burn succeeds. -/
def envExtractFail : FileEnv :=
  ⟨some "3", some "yuv420p".toList, true, true, some 0, "subs0.4.ass"⟩

/-- Auxiliary invariant used in the reachability induction: the pending list
of any reachable state is duplicate-free. -/
lemma reachable_pending_nodup (s : JobState) (hs : ReachableState s) :
    s.pending.Nodup ∧ ∀ x ∈ s.finished, x ∉ s.pending := by
  induction hs with
  | init videos hv =>
      exact ⟨hv, by intro x hx; simp at hx⟩
  | load videos s hv hs ih =>
      rcases ih with ⟨ihn, ihd⟩
      simp only [scan_load]
      by_cases hp : s.pending.isEmpty
      · simp only [hp, if_true]
        constructor
        · exact hv.filter _
        · intro x hx hmem
          rw [List.mem_filter] at hmem
          have h2 := hmem.2
          simp only [Bool.not_eq_true'] at h2
          have h3 : x ∉ s.finished := by
            intro hmem2
            simp [hmem2] at h2
          exact h3 hx
      · simp only [hp, if_false]
        exact ⟨ihn, ihd⟩
  | mark s f hs ih =>
      rcases ih with ⟨ihn, ihd⟩
      constructor
      · simpa [mark_done] using ihn.erase f
      · intro x hx hmem
        simp only [mark_done, Option.getD_some] at hx hmem
        by_cases hxf : x = f
        · subst hxf
          exact (ihn.not_mem_erase) hmem
        · have hxfin : x ∈ s.finished := by
            by_cases hfin : f ∈ s.finished
            · simpa [hfin] using hx
            · have hx' : x ∈ s.finished ∨ x = f := by
                simpa [hfin] using hx
              rcases hx' with hx' | hx'
              · exact hx'
              · exact absurd hx' hxf
          exact ihd x hxfin (List.mem_of_mem_erase hmem)
  | mark_absent f =>
      constructor
      · simp [mark_done]
      · intro x hx hmem
        simp [mark_done] at hmem

/-- C5: for every folder state reachable through the system's own operations
(fresh initialization by the scanner, reconciliation on load, and any
sequence of `mark_done` calls), the `finished` set and the `pending`
sequence are disjoint: no filename occurs in both. -/
theorem finished_pending_disjoint (s : JobState) (hs : ReachableState s) :
    ∀ x ∈ s.finished, x ∉ s.pending :=
  (reachable_pending_nodup s hs).2

/-- Witness for `finished_pending_disjoint`: after the scanner initializes a
two-video folder and `mark_done` records the first video, that video is no
longer pending. -/
theorem finished_pending_disjoint_witness :
    "a.mkv" ∉ (mark_done (some ⟨[], ["a.mkv", "b.mkv"]⟩) "a.mkv").pending :=
  finished_pending_disjoint _
    (ReachableState.mark _ _ (ReachableState.init _ (by decide))) "a.mkv"
    (by decide)

/-- C3: loading a folder whose directory holds exactly the videos a, b, c
over a persisted state with `finished = [a]`, `pending = []` yields an
in-memory work item with `finished = [a]` and `pending = [b, c]`
(all detected videos minus finished). -/
theorem reconcile_load_memory :
    (scan_load ["a.mkv", "b.mkv", "c.mkv"] (some ⟨["a.mkv"], []⟩)).2 =
      ⟨["a.mkv"], ["b.mkv", "c.mkv"]⟩ := by
  decide

/-- C2 (code bug): on the same folder, the state file written back
immediately after load still carries the stale empty `pending` list — the
source recomputes `pending` only into a local variable and dumps the loaded
`state` dict unchanged — even though the in-memory work item was reconciled
to `pending = [b, c]`. -/
theorem stale_pending_persisted :
    (scan_load ["a.mkv", "b.mkv", "c.mkv"] (some ⟨["a.mkv"], []⟩)).1 =
        ⟨["a.mkv"], []⟩ ∧
      (scan_load ["a.mkv", "b.mkv", "c.mkv"] (some ⟨["a.mkv"], []⟩)).1.pending ≠
        ["b.mkv", "c.mkv"] ∧
      (scan_load ["a.mkv", "b.mkv", "c.mkv"] (some ⟨["a.mkv"], []⟩)).2.pending =
        ["b.mkv", "c.mkv"] := by
  decide

/-- C4 counterexample: on a state whose pending list holds the same filename
twice, `mark_done` applied twice does not yield the same pending set as
applied once (`list.remove` deletes one occurrence per call): one call
leaves `x` pending, two calls do not. -/
theorem mark_done_twice_differs_on_dup :
    "x" ∈ (mark_done (some ⟨[], ["x", "x"]⟩) "x").pending ∧
      "x" ∉ (mark_done (some (mark_done (some ⟨[], ["x", "x"]⟩) "x")) "x").pending ∧
      (mark_done (some (mark_done (some ⟨[], ["x", "x"]⟩) "x")) "x").pending.toFinset ≠
        (mark_done (some ⟨[], ["x", "x"]⟩) "x").pending.toFinset := by
  decide

/-- C4 (amended): for every folder state in which the filename occurs at
most once in `pending` — true of every state the system itself produces —
`mark_done` is idempotent: a second call returns exactly the state persisted
by the first.  Marking an already-finished file changes nothing except
removing it from `pending` if present; marking an untracked file only
appends it to `finished`; and a call with no state file on disk succeeds and
persists the valid state `finished = [f]`, `pending = []`. -/
theorem mark_done_idem (s : JobState) (f : String)
    (h : s.pending.count f ≤ 1) :
    mark_done (some (mark_done (some s) f)) f = mark_done (some s) f ∧
      (f ∈ s.finished →
        mark_done (some s) f = ⟨s.finished, s.pending.erase f⟩) ∧
      (f ∉ s.finished → f ∉ s.pending →
        mark_done (some s) f = ⟨s.finished ++ [f], s.pending⟩) ∧
      mark_done none f = ⟨[f], []⟩ := by
  have hcount : (s.pending.erase f).count f = 0 := by
    rw [List.count_erase_self]
    omega
  have hnotmem : f ∉ s.pending.erase f := List.not_mem_of_count_eq_zero hcount
  refine ⟨?_, ?_, ?_, ?_⟩
  · simp only [mark_done, Option.getD_some]
    by_cases hc : f ∈ s.finished
    · simp [hc, List.erase_of_not_mem hnotmem]
    · have hmem2 : f ∈ s.finished ++ [f] := by simp
      simp [hc, hmem2, List.erase_of_not_mem hnotmem]
  · intro hf
    simp [mark_done, hf]
  · intro hf hp
    simp [mark_done, hf, List.erase_of_not_mem hp]
  · rfl

/-- Witness for `mark_done_idem` at a concrete two-video state. -/
theorem mark_done_idem_witness :
    mark_done (some (mark_done (some ⟨[], ["a.mkv", "b.mkv"]⟩) "a.mkv")) "a.mkv" =
      mark_done (some ⟨[], ["a.mkv", "b.mkv"]⟩) "a.mkv" :=
  (mark_done_idem ⟨[], ["a.mkv", "b.mkv"]⟩ "a.mkv" (by decide)).1

/-- C6: encoder selection follows the fixed preference order
NVENC > QSV > AMF > software fallback independently for each codec family,
as a pure function of the available set (it agrees with the spec-style
preference table everywhere); on the available set containing hevc_qsv and
hevc_amf the HEVC slot is hevc_qsv, and on the empty set all three slots
fall back to the software identifiers. -/
theorem pick_best_encoder_preference :
    (∀ encoders, pick_best_encoder encoders = select_best_spec encoders) ∧
      pick_best_encoder ["hevc_qsv", "hevc_amf"] =
        ["libxav1", "hevc_qsv", "libx264"] ∧
      pick_best_encoder [] = ["libxav1", "libx265", "libx264"] :=
  ⟨fun _ => rfl, by decide, by decide⟩

/-- Occurrences of a needle with no character satisfying `p` are unaffected
by `dropWhile p`. -/
lemma infix_dropWhile_iff (p : Char → Bool) (n : List Char) (hn : n ≠ [])
    (h : ∀ c ∈ n, p c = false) (s : List Char) :
    n <:+: s.dropWhile p ↔ n <:+: s := by
  induction s with
  | nil => simp
  | cons c t ih =>
      by_cases hc : p c = true
      · rw [List.dropWhile_cons_of_pos hc, ih]
        constructor
        · exact fun hi => List.infix_cons hi
        · intro hi
          rcases List.infix_cons_iff.mp hi with hpre | hinf
          · cases n with
            | nil => exact absurd rfl hn
            | cons a n' =>
                have hac := (List.cons_prefix_cons.mp hpre).1
                have hfa : p a = false := h a (by simp)
                rw [hac] at hfa
                rw [hfa] at hc
                cases hc
          · exact hinf
      · rw [List.dropWhile_cons_of_neg hc]

/-- Infix of a reversed list, restated on the other side. -/
lemma infix_reverse_right (m B : List Char) :
    m <:+: B.reverse ↔ m.reverse <:+: B := by
  constructor
  · intro hm
    have h2 := List.reverse_infix.mpr hm
    simpa using h2
  · intro hm
    have h2 := List.reverse_infix.mpr hm
    simpa using h2

/-- Stripping leading and trailing whitespace neither creates nor destroys
occurrences of a whitespace-free needle. -/
lemma infix_py_strip_iff (n : List Char) (hn : n ≠ [])
    (h : ∀ c ∈ n, c.isWhitespace = false) (s : List Char) :
    n <:+: py_strip s ↔ n <:+: s := by
  unfold py_strip
  rw [infix_reverse_right]
  rw [infix_dropWhile_iff Char.isWhitespace n.reverse (by simpa using hn)
    (fun c hc => h c (List.mem_reverse.mp hc)) _]
  rw [List.reverse_infix]
  exact infix_dropWhile_iff Char.isWhitespace n hn h s

/-- C10: the bit-depth probe classifies a file as 10-bit iff the two-character
string 10 occurs as a substring of the probed pixel-format output; hence
empty output is 8-bit, a raising probe defaults to 8-bit, and a 12-bit
format such as yuv420p12le is classified 8-bit and routed to the
H264 / format-normalizing path (while a true 10-bit format is recognized). -/
theorem is_10bit_substring :
    (∀ out : List Char, is_10bit out = true ↔ ['1', '0'] <:+: out) ∧
      is_10bit [] = false ∧
      is_10bit "yuv420p12le".toList = false ∧
      is_10bit "yuv420p10le".toList = true ∧
      bit_probe none = false ∧
      (process_file "libx265" "libx264" env12bit).is10 = false ∧
      (process_file "libx265" "libx264" env12bit).chosen_encoder = "libx264" ∧
      (process_file "libx265" "libx264" env12bit).vf =
        "format=yuv420p,subtitles=" ++ env12bit.subname := by
  refine ⟨?_, by decide, by decide, by decide, rfl, by decide, by decide, by decide⟩
  intro out
  unfold is_10bit
  simp only [decide_eq_true_eq]
  exact infix_py_strip_iff ['1', '0'] (by decide) (by decide) out

/-- C1 (code bug): the burn invocation is run without `check=True` (and
without a timeout), so a nonzero exit code raises nothing: the run still
deletes the sidecar, calls `mark_done` — moving the file out of `pending`
so it is never retried — and the `Error burning` branch never fires.  Here
evaluated at a run whose burn command exits with code 1. -/
theorem mark_done_called_on_failed_burn :
    (process_file "libx265" "libx264" envBurnFail).marked = true ∧
      (process_file "libx265" "libx264" envBurnFail).outputProduced = false ∧
      (process_file "libx265" "libx264" envBurnFail).burnErrorLogged = false := by
  decide

/-- C7 counterexample: an 8-bit file with no subtitle track selected is
encoded with an empty filter chain — nothing forces yuv420p — refuting the
claim that every 8-bit file gets the format-normalizing chain. -/
theorem eight_bit_no_subtitle_not_normalized :
    (process_file "libx265" "libx264" envNoSub8bit).is10 = false ∧
      (process_file "libx265" "libx264" envNoSub8bit).chosen_encoder = "libx264" ∧
      (process_file "libx265" "libx264" envNoSub8bit).vf = "" ∧
      (process_file "libx265" "libx264" envNoSub8bit).vf ≠
        "format=yuv420p,subtitles=" ++ envNoSub8bit.subname := by
  decide

/-- C7 (amended): encoder routing by bit depth is unconditional (10-bit to
the HEVC choice, 8-bit to the H264 choice); the claimed filter chains hold
whenever a subtitle track is selected and the extraction invocation does
not raise (10-bit: subtitle filter only; 8-bit: yuv420p forced before the
subtitle filter); with no selected subtitle or a raising extraction the
filter chain is empty. -/
theorem bit_depth_routing (best265 best264 : String) (env : FileEnv) :
    ((process_file best265 best264 env).is10 = bit_probe env.probeOut) ∧
      ((process_file best265 best264 env).chosen_encoder =
        if bit_probe env.probeOut then best265 else best264) ∧
      (hasSubSel env.subSel = true → env.extractRaises = false →
        (process_file best265 best264 env).vf =
          (if bit_probe env.probeOut then "subtitles=" ++ env.subname
           else "format=yuv420p,subtitles=" ++ env.subname)) ∧
      ((hasSubSel env.subSel = false ∨ env.extractRaises = true) →
        (process_file best265 best264 env).vf = "") := by
  cases hb : env.burnResult with
  | none =>
      cases hs : hasSubSel env.subSel <;> cases he : env.extractRaises <;>
        simp [process_file, hb, hs, he]
  | some code =>
      cases hs : hasSubSel env.subSel <;> cases he : env.extractRaises <;>
        simp [process_file, hb, hs, he]

/-- Witness for `bit_depth_routing` on a 10-bit input with a selected
subtitle and successful extraction. -/
theorem bit_depth_routing_witness :
    (process_file "libx265" "libx264" env10bit).chosen_encoder = "libx265" ∧
      (process_file "libx265" "libx264" env10bit).vf =
        "subtitles=" ++ env10bit.subname := by
  have h := bit_depth_routing "libx265" "libx264" env10bit
  refine ⟨?_, ?_⟩
  · rw [h.2.1]
    decide
  · rw [h.2.2.1 (by decide) (by decide)]
    decide

/-- C9: if the subtitle-extraction invocation raises, the file is still
encoded with no subtitle burn-in filter (no `-vf` on the burn command), an
output is produced whenever the burn itself returns exit 0, and no temp
sidecar file remains after the file's processing — the exception handler
removes any partial sidecar. -/
theorem extraction_failure_graceful (best265 best264 : String) (env : FileEnv)
    (hsub : hasSubSel env.subSel = true) (hex : env.extractRaises = true) :
    (process_file best265 best264 env).vf = "" ∧
      (process_file best265 best264 env).burnHasVf = false ∧
      (env.burnResult = some 0 →
        (process_file best265 best264 env).outputProduced = true) ∧
      (process_file best265 best264 env).sidecarAfter = false := by
  cases hb : env.burnResult with
  | none => simp [process_file, hb, hsub, hex]
  | some code => simp [process_file, hb, hsub, hex]

/-- Witness for `extraction_failure_graceful` at a concrete environment. -/
theorem extraction_failure_graceful_witness :
    (process_file "libx265" "libx264" envExtractFail).vf = "" ∧
      (process_file "libx265" "libx264" envExtractFail).sidecarAfter = false := by
  have h := extraction_failure_graceful "libx265" "libx264" envExtractFail
    (by decide) (by decide)
  exact ⟨h.1, h.2.2.2⟩

/-- The global percentage is monotone in the completed counter. -/
lemma global_percent_mono (c t : ℕ) :
    global_percent c t ≤ global_percent (c + 1) t := by
  unfold global_percent
  by_cases ht : t = 0
  · simp [ht]
  · have ht' : (0 : ℚ) < t := by
      have h0 : 0 < t := Nat.pos_of_ne_zero ht
      exact_mod_cast h0
    rw [if_neg ht, if_neg ht]
    push_cast
    gcongr
    linarith

/-- One emitted percentage per processed file. -/
lemma run_files_length (b5 b4 : String) (envs : List FileEnv) :
    ∀ c t, (run_files b5 b4 envs c t).1.length = envs.length := by
  induction envs with
  | nil => intro c t; rfl
  | cons e rest ih => intro c t; simp [run_files, ih]

/-- The completed counter advances by exactly one per file, for success and
failure alike (it never inspects the file's outcome). -/
lemma run_files_count (b5 b4 : String) (envs : List FileEnv) :
    ∀ c t, (run_files b5 b4 envs c t).2 = c + envs.length := by
  induction envs with
  | nil => intro c t; simp [run_files]
  | cons e rest ih =>
      intro c t
      simp only [run_files, ih, List.length_cons]
      omega

/-- Head of the emitted sequence. -/
lemma run_files_head (b5 b4 : String) (e : FileEnv) (rest : List FileEnv)
    (c t : ℕ) :
    (run_files b5 b4 (e :: rest) c t).1.head? =
      some (global_percent (c + 1) t) := by
  simp [run_files]

/-- The emitted global percentages are non-decreasing. -/
lemma run_files_chain (b5 b4 : String) (envs : List FileEnv) :
    ∀ c t, ((run_files b5 b4 envs c t).1).Chain' (· ≤ ·) := by
  induction envs with
  | nil => intro c t; simp [run_files]
  | cons e rest ih =>
      intro c t
      rw [show (run_files b5 b4 (e :: rest) c t).1 =
          global_percent (c + 1) t :: (run_files b5 b4 rest (c + 1) t).1 from rfl]
      rw [List.chain'_cons']
      refine ⟨?_, ih (c + 1) t⟩
      intro y hy
      cases rest with
      | nil => simp [run_files] at hy
      | cons e2 rest2 =>
          rw [run_files_head] at hy
          simp only [Option.mem_def, Option.some.injEq] at hy
          subst hy
          exact global_percent_mono (c + 1) t

/-- Final emitted percentage of a nonempty batch. -/
lemma run_files_last (b5 b4 : String) (envs : List FileEnv) :
    ∀ c t, envs ≠ [] →
      (run_files b5 b4 envs c t).1.getLast? =
        some (global_percent (c + envs.length) t) := by
  induction envs with
  | nil => intro c t h; exact absurd rfl h
  | cons e rest ih =>
      intro c t _
      by_cases hne : rest = []
      · subst hne
        simp [run_files]
      · have hlen := run_files_length b5 b4 rest (c + 1) t
        obtain ⟨x, xs, hxs⟩ :
            ∃ x xs, (run_files b5 b4 rest (c + 1) t).1 = x :: xs := by
          cases hc : (run_files b5 b4 rest (c + 1) t).1 with
          | nil =>
              exfalso
              rw [hc] at hlen
              have hz : rest.length = 0 := by simpa using hlen.symm
              exact hne (List.length_eq_zero.mp hz)
          | cons x xs => exact ⟨x, xs, rfl⟩
        have h1 : (run_files b5 b4 (e :: rest) c t).1 =
            global_percent (c + 1) t :: (run_files b5 b4 rest (c + 1) t).1 := rfl
        rw [h1, hxs, List.getLast?_cons_cons, ← hxs, ih (c + 1) t hne]
        congr 2
        simp only [List.length_cons]
        omega

/-- C8: for a batch of N > 0 tasks processed sequentially, the emitted
global percentages form a non-decreasing sequence ending at 100; every
processed file advances the completed counter by one whatever its outcome;
and both the per-folder and the global percentage clamp to 100 when their
denominator is zero. -/
theorem progress_monotone (best265 best264 : String) (envs : List FileEnv)
    (h : 0 < envs.length) :
    ((run_files best265 best264 envs 0 envs.length).1).Chain' (· ≤ ·) ∧
      (run_files best265 best264 envs 0 envs.length).1.getLast? = some 100 ∧
      (∀ c t, (run_files best265 best264 envs c t).2 = c + envs.length) ∧
      (∀ c, global_percent c 0 = 100) ∧
      (∀ p, folder_percent p 0 = 100) := by
  have hne : envs ≠ [] := by
    cases envs
    · simp at h
    · simp
  refine ⟨run_files_chain _ _ _ 0 _, ?_, run_files_count _ _ _,
    fun c => rfl, fun p => rfl⟩
  rw [run_files_last _ _ _ 0 _ hne]
  congr 1
  unfold global_percent
  rw [zero_add, if_neg (Nat.pos_iff_ne_zero.mp h)]
  rw [div_self (by exact_mod_cast Nat.pos_iff_ne_zero.mp h), one_mul]

/-- Witness for `progress_monotone` on a two-file batch in which the first
file succeeds and the second one's burn exits nonzero. -/
theorem progress_monotone_witness :
    ((run_files "libx265" "libx264" [env10bit, envBurnFail] 0
        ([env10bit, envBurnFail] : List FileEnv).length).1).Chain' (· ≤ ·) ∧
      (run_files "libx265" "libx264" [env10bit, envBurnFail] 0
        ([env10bit, envBurnFail] : List FileEnv).length).1.getLast? = some 100 := by
  have h := progress_monotone "libx265" "libx264" [env10bit, envBurnFail]
    (by decide)
  exact ⟨h.1, h.2.1⟩
